import Mathlib

/-!
Verification of the JBD BMS protocol engine (jbd-ui-tool).

Shallow embedding of the TypeScript sources:
  * `src/lib/jbd-protocol.ts` — checksum, packet builders, response parser,
    and the shared stream splitter (`splitPackets` from the decoder module);
  * `src/lib/serial.ts` — the retrying command executor (`_sendCommand`),
    the EEPROM-bracketed operations (`writeRegister`, `readConfig`) and the
    port prober (`probePort`);
  * the decoder panel's textual input parsers (`parseHexInput`,
    `parseCEscaped`, `looksLikeCEscaped`).

Byte buffers (`Uint8Array`) are modelled as `List Nat` whose cells are
understood to be < 256; where JavaScript truncates on store
(`Uint8Array` cell assignment) the embedding writes `% 256` explicitly.
Bit operations on known-width values are written arithmetically:
`(x >> 8) & 0xff` is `x / 256 % 256`, `x & 0xff` is `x % 256`, and
`(hi << 8) | lo` for byte-valued `hi`, `lo` is `hi * 256 + lo`.
-/

namespace JBD

-- ── Constants (jbd-protocol.ts) ──────────────────────────────────────────────

def JBD_START : Nat := 0xdd

def JBD_END : Nat := 0x77

def JBD_CMD_READ : Nat := 0xa5

def JBD_CMD_WRITE : Nat := 0x5a

def JBD_CMD_HWINFO : Nat := 0x03

def JBD_REG_EEPROM : Nat := 0x00

def JBD_REG_CONFIG : Nat := 0x01

/-- `calcCRC` from jbd-protocol.ts: start at 0, subtract every byte, keep the
low 16 bits (`crc & 0xffff` of the accumulated negative sum equals
`(-sum) mod 2^16`). -/
def calcCRC (data : List Nat) : Nat :=
  (65536 - data.sum % 65536) % 65536

/-- `buildReadPacket` from jbd-protocol.ts.  The CRC covers `[REG, LEN]`
with LEN = 0 for reads. -/
def buildReadPacket (register : Nat) : List Nat :=
  let crc := calcCRC [register % 256, 0x00]
  [JBD_START, JBD_CMD_READ, register % 256, 0x00, crc / 256 % 256, crc % 256, JBD_END]

/-- `buildWritePacket` from jbd-protocol.ts.  The CRC covers
`[REG, LEN, DATA...]`; every stored cell is truncated to a byte exactly as a
`Uint8Array` store does (in particular `packet[3] = len` stores
`len % 256`, while the allocated packet length stays `7 + len`). -/
def buildWritePacket (register : Nat) (data : List Nat) : List Nat :=
  let len := data.length
  let crc := calcCRC (register % 256 :: len % 256 :: data.map (· % 256))
  JBD_START :: JBD_CMD_WRITE :: register % 256 :: len % 256 ::
    (data.map (· % 256) ++ [crc / 256 % 256, crc % 256, JBD_END])

/-- `buildEEPROMOpen` from jbd-protocol.ts. -/
def buildEEPROMOpen : List Nat :=
  buildWritePacket JBD_REG_EEPROM [0x56, 0x78]

/-- `buildEEPROMClose` from jbd-protocol.ts. -/
def buildEEPROMClose : List Nat :=
  buildWritePacket JBD_REG_CONFIG [0x00, 0x00]

/-- `buildWriteUint16` from jbd-protocol.ts. -/
def buildWriteUint16 (register value : Nat) : List Nat :=
  buildWritePacket register [value / 256 % 256, value % 256]

-- ── Response parser (jbd-protocol.ts `parseResponsePacket`) ──────────────────

structure ParsedPacket where
  register : Nat
  status : Nat
  data : List Nat
  deriving Repr, DecidableEq

/-- Body of `parseResponsePacket` once the start byte has been located:
the argument is `buffer.drop start`, so the source's `buffer[start + k]`
accesses become `getD k` here and `buffer.length - start` becomes
`t.length`.  `slice(start+4, start+4+len)` is `(t.drop 4).take len` and the
CRC payload `slice(start+2, start+4+len)` is `(t.drop 2).take (2 + len)`. -/
def parseFrom (t : List Nat) : Option ParsedPacket :=
  if t.length < 7 then none
  else
    let register := t.getD 1 0
    let status := t.getD 2 0
    let len := t.getD 3 0
    if t.length < 7 + len then none
    else
      let data := (t.drop 4).take len
      let crcHi := t.getD (4 + len) 0
      let crcLo := t.getD (5 + len) 0
      let endByte := t.getD (6 + len) 0
      if endByte ≠ JBD_END then none
      else
        let expectedCrc := calcCRC ((t.drop 2).take (2 + len))
        let actualCrc := crcHi * 256 + crcLo
        if expectedCrc ≠ actualCrc then none
        else some ⟨register, status, data⟩

/-- The start-byte scan of `parseResponsePacket`: the index of the first
0xDD, or none (`start === -1`). -/
def findStart : List Nat → Option Nat
  | [] => none
  | b :: rest => if b = JBD_START then some 0 else (findStart rest).map (· + 1)

/-- `parseResponsePacket` from jbd-protocol.ts: scan for the first START
byte (0xDD), then parse the frame relative to it. -/
def parseResponsePacket (buffer : List Nat) : Option ParsedPacket :=
  match findStart buffer with
  | none => none
  | some start => parseFrom (buffer.drop start)

-- ── Stream splitter (jbd-decoder module, `splitPackets`) ─────────────────────

/-- `splitPackets` from the decoder module: scan for 0xDD; with fewer than 7
bytes remaining emit the remainder and stop; otherwise slice exactly
`7 + LEN` bytes (LEN at relative offset 3) or, if the stream ends mid-frame,
emit the remainder and stop. -/
def splitPackets : List Nat → List (List Nat)
  | [] => []
  | b :: rest =>
    if b = JBD_START then
      if (b :: rest).length < 7 then [b :: rest]
      else
        let len := (b :: rest).getD 3 0
        if 7 + len ≤ (b :: rest).length then
          (b :: rest).take (7 + len) :: splitPackets ((b :: rest).drop (7 + len))
        else [b :: rest]
    else splitPackets rest
termination_by l => l.length
decreasing_by
  · simp only [List.length_drop, List.length_cons]
    omega
  · simp

-- ── Command executor (serial.ts `BMSSerial._sendCommand`) ────────────────────

/-- `MAX_RETRIES` from serial.ts. -/
def MAX_RETRIES : Nat := 3

/-- The errors `_sendCommand` can throw per attempt: `Invalid response
packet` when `parseResponsePacket` returns null (covering framing failures
and timeouts, which deliver an incomplete buffer), and `BMS error status`
for a nonzero status byte.  `exhausted` is the fallback
`new Error('Command failed after retries')` thrown when no attempt ran. -/
inductive CmdError where
  | invalidResponse
  | statusError (s : Nat)
  | exhausted
  deriving Repr, DecidableEq

/-- One attempt of `_sendCommand`, given the response buffer the transport
delivered for it (an empty buffer models a timeout with no data). -/
def attemptResult (resp : List Nat) : Except CmdError ParsedPacket :=
  match parseResponsePacket resp with
  | none => .error .invalidResponse
  | some p => if p.status ≠ 0 then .error (.statusError p.status) else .ok p

/-- Result of running a command against the transport model: the outcome,
the unconsumed per-attempt responses, and the packets written (TX). -/
structure CmdResult where
  result : Except CmdError ParsedPacket
  rest : List (List Nat)
  tx : List (List Nat)
  deriving Repr

/-- The retry loop of `_sendCommand`: each attempt writes the packet and
consumes the next response from the environment (missing responses model
timeouts and read as empty buffers); `lastErr` is the source's `lastError`
variable, overwritten on every failing attempt and thrown once the fuel is
exhausted. -/
def runAttempts (packet : List Nat) : Nat → List (List Nat) → Option CmdError → CmdResult
  | 0, env, lastErr => ⟨.error (lastErr.getD .exhausted), env, []⟩
  | n + 1, env, _ =>
    let resp := env.headD []
    match attemptResult resp with
    | .ok p => ⟨.ok p, env.tail, [packet]⟩
    | .error e =>
      let r := runAttempts packet n env.tail (some e)
      ⟨r.result, r.rest, packet :: r.tx⟩

/-- `_sendCommand` over the transport model: up to `MAX_RETRIES` attempts. -/
def sendCommandModel (packet : List Nat) (env : List (List Nat)) : CmdResult :=
  runAttempts packet MAX_RETRIES env none

-- ── EEPROM-bracketed operations (serial.ts) ──────────────────────────────────

/-- `writeRegister` from serial.ts: open EEPROM, then
`try { write } finally { close (errors swallowed) }`.  If the open command
itself fails the error propagates before the bracket is entered.  The
second component is the transport TX trace. -/
def writeRegisterModel (register value : Nat) (env : List (List Nat)) :
    Except CmdError Unit × List (List Nat) :=
  let r1 := sendCommandModel buildEEPROMOpen env
  match r1.result with
  | .error e => (.error e, r1.tx)
  | .ok _ =>
    let r2 := sendCommandModel (buildWriteUint16 register value) r1.rest
    let r3 := sendCommandModel buildEEPROMClose r2.rest
    (r2.result.map fun _ => (), r1.tx ++ r2.tx ++ r3.tx)

/-- The registers `readConfig` reads, in source order (serial.ts lines
587–625; the last three are the string registers). -/
def readConfigRegs : List Nat :=
  [0x10, 0x11, 0x12, 0x13, 0x14, 0x18, 0x19, 0x1a, 0x1b, 0x1c, 0x1d, 0x1e,
   0x1f, 0x20, 0x21, 0x22, 0x23, 0x24, 0x25, 0x26, 0x27, 0x28, 0x29, 0x2a,
   0x2b, 0x2c, 0x2d, 0x2e, 0x2f, 0x30, 0x31, 0x36, 0x37, 0x16, 0x17, 0x15,
   0xa0, 0xa1, 0xa2]

/-- The sequential single-register reads inside `readConfig`'s try block:
each register is read with `buildReadPacket`; the first failure aborts the
sequence (the exception propagates to the finally block). -/
def readSeq : List Nat → List (List Nat) →
    Except CmdError (List (List Nat)) × List (List Nat) × List (List Nat)
  | [], env => (.ok [], env, [])
  | reg :: regs, env =>
    let r := sendCommandModel (buildReadPacket reg) env
    match r.result with
    | .error e => (.error e, r.rest, r.tx)
    | .ok p =>
      let s := readSeq regs r.rest
      ((s.1).map (p.data :: ·), s.2.1, r.tx ++ s.2.2)

/-- `readConfig` from serial.ts: open EEPROM, read every config register in
sequence, and close the EEPROM in a finally block whose own failure is
swallowed.  The decoding of the collected register values into the
`BMSConfig` record is pure post-processing of the returned data and does
not touch the transport, so the model returns the raw per-register data.
The second component is the transport TX trace. -/
def readConfigModel (env : List (List Nat)) :
    Except CmdError (List (List Nat)) × List (List Nat) :=
  let r1 := sendCommandModel buildEEPROMOpen env
  match r1.result with
  | .error e => (.error e, r1.tx)
  | .ok _ =>
    let s := readSeq readConfigRegs r1.rest
    let r3 := sendCommandModel buildEEPROMClose s.2.1
    (s.1, r1.tx ++ s.2.2 ++ r3.tx)

-- ── Port prober (serial.ts `BMSSerial.probePort`) ────────────────────────────

/-- One outcome of `reader.read()` inside the probe window: a data chunk, a
stream end (`done`, which also models the 1500 ms deadline firing between
reads), or a thrown read error. -/
inductive ReadEvent where
  | chunk (bytes : List Nat)
  | done
  | fail
  deriving Repr, DecidableEq

/-- Abstract environment for one `probePort` call.  Real time is abstracted:
`reads` is the sequence of read outcomes the port delivers before the
1500 ms probe deadline, and an exhausted list models the deadline firing. -/
structure ProbeEnv where
  openOk : Bool
  writableOk : Bool
  writeOk : Bool
  readableOk : Bool
  reads : List ReadEvent
  closeOk : Bool

/-- `mergeChunks` from serial.ts: concatenate the received chunks. -/
def mergeChunks (chunks : List (List Nat)) : List Nat :=
  chunks.flatten

/-- The probe read loop: accumulate chunks, reparse the merged buffer after
each one, and stop as soon as a parsed packet addressed to the HWINFO
register appears.  Returns `(found, ok)`; `ok = false` means `reader.read()`
threw and the exception escaped to `probePort`'s catch. -/
def probeReadLoop (acc : List (List Nat)) : List ReadEvent → Bool × Bool
  | [] => (false, true)
  | .done :: _ => (false, true)
  | .fail :: _ => (false, false)
  | .chunk c :: rest =>
    let acc' := acc ++ [c]
    match parseResponsePacket (mergeChunks acc') with
    | some p => if p.register = JBD_CMD_HWINFO then (true, true) else probeReadLoop acc' rest
    | none => probeReadLoop acc' rest

/-- The tail of `probePort` after the read loop, given the loop's
`(found, ok)` outcome `r`: a read error (`ok = false`) escapes to the
catch which closes and returns `false`; otherwise `await port.close()`
either succeeds (returning `found`) or throws, in which case the catch
closes again and returns `false`. -/
def probeFinish (closeOk : Bool) (r : Bool × Bool) : Bool × Bool :=
  if !r.2 then (false, true)
  else if closeOk then (r.1, true)
  else (false, true)

/-- `probePort` from serial.ts.  Every failure (open failure, write failure,
read failure, close failure, timeout, no matching response) funnels into the
catch-all and yields `false`; the port close is attempted on every path
(directly on success, and inside the catch otherwise).  Returns
`(confirmed, closeAttempted)`. -/
def probePortModel (env : ProbeEnv) : Bool × Bool :=
  if !env.openOk then (false, true)
  else if env.writableOk && !env.writeOk then (false, true)
  else
    probeFinish env.closeOk
      (if env.readableOk then probeReadLoop [] env.reads else (false, true))

-- ── Decoder panel textual input (DecoderPanel component) ─────────────────────

/-- The whitespace the embedding recognises for `String.trim` and the `\s`
regex class (ASCII subset; the renderings examined below contain none of
the further Unicode space characters). -/
def isSpaceChar (c : Char) : Bool :=
  c == ' ' || c == '\t' || c == '\n' || c == '\r'

/-- `input.trim()`. -/
def trimChars (s : List Char) : List Char :=
  ((s.dropWhile isSpaceChar).reverse.dropWhile isSpaceChar).reverse

def isHexDigitChar (c : Char) : Bool :=
  (48 ≤ c.toNat && c.toNat ≤ 57) || (97 ≤ c.toNat && c.toNat ≤ 102) ||
    (65 ≤ c.toNat && c.toNat ≤ 70)

/-- Value of a hex digit, as `parseInt(..., 16)` assigns it. -/
def hexVal (c : Char) : Nat :=
  if 48 ≤ c.toNat && c.toNat ≤ 57 then c.toNat - 48
  else if 97 ≤ c.toNat && c.toNat ≤ 102 then c.toNat - 87
  else c.toNat - 55

/-- Whether a backslash at the current position starts one of the two
patterns of the detection regex: `x` plus two hex digits, or `0`. -/
def escapeStartsHere : List Char → Bool
  | 'x' :: a :: b :: _ => isHexDigitChar a && isHexDigitChar b
  | '0' :: _ => true
  | _ => false

/-- `looksLikeCEscaped`: true iff the regex `\\x[0-9a-fA-F]{2}` or `\\0`
matches somewhere, i.e. some position starts a backslash-x-hex-hex or
backslash-zero sequence. -/
def looksLikeCEscaped : List Char → Bool
  | [] => false
  | c :: rest => (c == '\\' && escapeStartsHere rest) || looksLikeCEscaped rest

/-- The scanning loop of `parseCEscaped`.  A trailing backslash is skipped;
`\xНН` with two hex digits consumes four characters; a malformed `\x`
consumes the backslash and the x; `\0 \n \r \t \\` map to their bytes; an
unknown escape pushes the backslash's own char code (92) and advances one
character; a plain character pushes its char code masked to a byte. -/
def parseCEscapedLoop : List Char → List Nat
  | [] => []
  | ['\\'] => []
  | '\\' :: next :: rest =>
    if next == 'x' || next == 'X' then
      match rest with
      | a :: b :: tail =>
        if isHexDigitChar a && isHexDigitChar b then
          (hexVal a * 16 + hexVal b) :: parseCEscapedLoop tail
        else parseCEscapedLoop (a :: b :: tail)
      | [a] => parseCEscapedLoop [a]
      | [] => parseCEscapedLoop []
    else if next == '0' then 0 :: parseCEscapedLoop rest
    else if next == 'n' then 10 :: parseCEscapedLoop rest
    else if next == 'r' then 13 :: parseCEscapedLoop rest
    else if next == 't' then 9 :: parseCEscapedLoop rest
    else if next == '\\' then 92 :: parseCEscapedLoop rest
    else 92 :: parseCEscapedLoop (next :: rest)
  | c :: rest => (c.toNat % 256) :: parseCEscapedLoop rest
termination_by l => l.length
decreasing_by all_goals simp_arith [List.length_cons]

/-- `parseCEscaped`: null when no byte was produced. -/
def parseCEscaped (input : List Char) : Option (List Nat) :=
  let bytes := parseCEscapedLoop input
  if bytes.isEmpty then none else some bytes

/-- The character class `[\s:,\t]` removed by `parseHexInput`'s delimiter
strip. -/
def isStripChar (c : Char) : Bool :=
  isSpaceChar c || c == ':' || c == ','

/-- `hexStr.replace(/^0x/i, '')`. -/
def stripLeadingHexMarker : List Char → List Char
  | '0' :: 'x' :: rest => rest
  | '0' :: 'X' :: rest => rest
  | s => s

/-- The final byte-pairing loop of `parseHexInput` (`parseInt` of each
two-character slice; the string length is even when this runs). -/
def hexPairs : List Char → List Nat
  | a :: b :: rest => (hexVal a * 16 + hexVal b) :: hexPairs rest
  | _ => []

/-- `parseHexInput` from the decoder panel: trim; empty input is null;
C-escaped-looking input goes to `parseCEscaped`; otherwise the delimiter
classes are stripped only when a space, colon, or tab occurs somewhere; a
leading `0x` is dropped; the remainder must be nonempty, all hex digits and
of even length. -/
def parseHexInput (input : List Char) : Option (List Nat) :=
  let cleaned := trimChars input
  if cleaned.isEmpty then none
  else if looksLikeCEscaped cleaned then parseCEscaped cleaned
  else
    let hexStr0 :=
      if cleaned.contains ' ' || cleaned.contains ':' || cleaned.contains '\t' then
        cleaned.filter (fun c => !isStripChar c)
      else cleaned
    let hexStr := stripLeadingHexMarker hexStr0
    if hexStr.isEmpty || !hexStr.all isHexDigitChar then none
    else if hexStr.length % 2 ≠ 0 then none
    else some (hexPairs hexStr)

-- ── Specification-side constructions ─────────────────────────────────────────

/-- Uppercase hex digit for a value below 16 (the rendering a traffic log
displays). -/
def toHexDigit (n : Nat) : Char :=
  if n < 10 then Char.ofNat (48 + n) else Char.ofNat (55 + n)

/-- Two-digit uppercase hexadecimal rendering of one byte. -/
def byteHex (b : Nat) : List Char :=
  [toHexDigit (b / 16), toHexDigit (b % 16)]

/-- Hexadecimal rendering of a byte sequence with one delimiter character
between consecutive bytes. -/
def renderDelim (d : Char) : List Nat → List Char
  | [] => []
  | [b] => byteHex b
  | b :: rest => byteHex b ++ d :: renderDelim d rest

/-- Undelimited hexadecimal rendering of a byte sequence. -/
def renderBytes : List Nat → List Char
  | [] => []
  | b :: rest => byteHex b ++ renderBytes rest

/-- A response frame assembled exactly as the claim describes: START,
register, status, LEN, data, then the checksum `calcCRC` over
`[status, LEN, DATA...]` stored big-endian, then END. -/
def mkResponseFrame (register status : Nat) (data : List Nat) : List Nat :=
  let crc := calcCRC (status :: data.length :: data)
  JBD_START :: register :: status :: data.length ::
    (data ++ [crc / 256 % 256, crc % 256, JBD_END])

/-- The same frame with the LEN byte replaced by `lenByte` and the checksum
left as originally computed. -/
def mkFrameWithLen (register status : Nat) (data : List Nat) (lenByte : Nat) : List Nat :=
  let crc := calcCRC (status :: data.length :: data)
  JBD_START :: register :: status :: lenByte ::
    (data ++ [crc / 256 % 256, crc % 256, JBD_END])

/-- The same frame with data byte `i` replaced by `b` and the checksum left
as originally computed. -/
def mkFrameWithData (register status : Nat) (data : List Nat) (i b : Nat) : List Nat :=
  let crc := calcCRC (status :: data.length :: data)
  JBD_START :: register :: status :: data.length ::
    (data.set i b ++ [crc / 256 % 256, crc % 256, JBD_END])

-- ── General lemmas ───────────────────────────────────────────────────────────

lemma calcCRC_lt (l : List Nat) : calcCRC l < 65536 :=
  Nat.mod_lt _ (by norm_num)

lemma findStart_append (g l : List Nat) (hg : ∀ b ∈ g, b ≠ JBD_START) :
    findStart (g ++ l) = (findStart l).map (· + g.length) := by
  induction g with
  | nil =>
    rw [List.nil_append]
    cases h : findStart l <;> simp [h]
  | cons a g ih =>
    have ha : a ≠ JBD_START := hg a (by simp)
    rw [List.cons_append]
    simp only [findStart, if_neg ha, ih (fun b hb => hg b (by simp [hb]))]
    cases findStart l
    · simp
    · simp
      omega

-- ── C2 ───────────────────────────────────────────────────────────────────────

/-- C2 (counterexample): the claim says encoding a read of register 0x03
yields `DD A5 03 00 FF FC 77`; the encoder does not produce those bytes
(the checksum of `[0x03, 0x00]` is 0xFFFD, not 0xFFFC). -/
theorem c2_counterexample :
    buildReadPacket 0x03 ≠ [0xdd, 0xa5, 0x03, 0x00, 0xff, 0xfc, 0x77] := by decide

/-- C2 (amended): encoding a read request for register 0x03 with the frame
codec produces exactly the byte sequence `DD A5 03 00 FF FD 77`. -/
theorem c2_read_request_bytes :
    buildReadPacket 0x03 = [0xdd, 0xa5, 0x03, 0x00, 0xff, 0xfd, 0x77] := by decide

-- ── C5 ───────────────────────────────────────────────────────────────────────

lemma buildWritePacket_length (register : Nat) (data : List Nat) :
    (buildWritePacket register data).length = 7 + data.length := by
  simp [buildWritePacket]
  omega

lemma buildWritePacket_lenByte (register : Nat) (data : List Nat) :
    (buildWritePacket register data).getD 3 0 = data.length % 256 := rfl

/-- C5 (counterexample): the claim says the encoder reports an error for
payloads longer than 255 bytes; instead, for a 256-byte payload it
produces a 263-byte frame whose LEN byte is 0 (truncated modulo 256). -/
theorem c5_counterexample :
    (buildWritePacket 0x10 (List.replicate 256 0)).length = 263 ∧
    (buildWritePacket 0x10 (List.replicate 256 0)).getD 3 0 = 0 := by
  rw [buildWritePacket_length, buildWritePacket_lenByte, List.length_replicate]
  norm_num

/-- C5 (amended): the frame encoder never fails; for every register and
payload it produces a frame of total length `7 + payload length` whose LEN
byte is the payload length reduced modulo 256 (so payloads of at most 255
bytes get a faithful LEN field, and longer payloads are silently truncated
in the LEN field rather than rejected). -/
theorem c5_encoder_total (register : Nat) (data : List Nat) :
    (buildWritePacket register data).length = 7 + data.length ∧
    (buildWritePacket register data).getD 3 0 = data.length % 256 :=
  ⟨buildWritePacket_length register data, buildWritePacket_lenByte register data⟩

-- ── C6 ───────────────────────────────────────────────────────────────────────

/-- C6 (counterexample): prefixing one 0xDD garbage byte to a valid frame
changes the decode result from a parsed packet to null, because the decoder
only parses at the first 0xDD and never rescans. -/
theorem c6_counterexample :
    parseResponsePacket ([0xdd] ++ [0xdd, 0x03, 0, 0, 0, 0, 0x77]) = none ∧
    parseResponsePacket [0xdd, 0x03, 0, 0, 0, 0, 0x77] = some ⟨3, 0, []⟩ := by
  constructor <;> decide

/-- C6 (amended): for every garbage prefix that contains no START (0xDD)
byte, decoding `garbage ++ frame` returns exactly the same result as
decoding `frame` alone. -/
theorem c6_decode_skips_leading_noise (g frame : List Nat)
    (hg : ∀ b ∈ g, b ≠ JBD_START) :
    parseResponsePacket (g ++ frame) = parseResponsePacket frame := by
  unfold parseResponsePacket
  rw [findStart_append g frame hg]
  cases hf : findStart frame with
  | none => rfl
  | some s =>
    simp only [Option.map_some']
    rw [show s + g.length = g.length + s from by omega, List.drop_append]

/-- Witness for C6 at a concrete garbage prefix and frame. -/
theorem c6_witness :
    parseResponsePacket ([1, 2] ++ [0xdd, 0x03, 0, 0, 0, 0, 0x77]) =
      parseResponsePacket [0xdd, 0x03, 0, 0, 0, 0, 0x77] :=
  c6_decode_skips_leading_noise [1, 2] [0xdd, 0x03, 0, 0, 0, 0, 0x77] (by decide)

-- ── C10 ──────────────────────────────────────────────────────────────────────

/-- C10: the response parser is total (an Option-valued function of the
whole buffer) and in-bounds: whenever it returns a packet, the frame found
at the first 0xDD lies entirely inside the buffer (`start + 7 + LEN ≤
length`, so every index the source reads, up to `start + 6 + LEN`, is in
range) and the packet's data length equals the frame's declared LEN byte. -/
theorem c10_parser_inbounds_len_exact (buffer : List Nat) (p : ParsedPacket)
    (h : parseResponsePacket buffer = some p) :
    ∃ s, findStart buffer = some s ∧
      s + 7 + p.data.length ≤ buffer.length ∧
      p.data.length = buffer.getD (s + 3) 0 := by
  unfold parseResponsePacket at h
  cases hf : findStart buffer with
  | none => rw [hf] at h; cases h
  | some s =>
    rw [hf] at h
    simp only [parseFrom] at h
    by_cases h7 : (buffer.drop s).length < 7
    · rw [if_pos h7] at h; cases h
    rw [if_neg h7] at h
    by_cases hL : (buffer.drop s).length < 7 + (buffer.drop s).getD 3 0
    · rw [if_pos hL] at h; cases h
    rw [if_neg hL] at h
    split at h
    · cases h
    split at h
    · cases h
    have hp := (Option.some.inj h).symm
    subst hp
    have h9 : (buffer.drop s).length = buffer.length - s := by simp
    refine ⟨s, rfl, ?_, ?_⟩
    · simp only [List.length_take, List.length_drop]
      omega
    · have hGet : (buffer.drop s).getD 3 0 = buffer.getD (s + 3) 0 := by
        rw [List.getD_eq_getElem?_getD, List.getD_eq_getElem?_getD, List.getElem?_drop]
      rw [← hGet]
      simp only [List.length_take, List.length_drop]
      omega

/-- Witness for C10 at a concrete parsed buffer. -/
theorem c10_witness :
    ∃ s, findStart [0xdd, 0x03, 0, 0, 0, 0, 0x77] = some s ∧
      s + 7 + (ParsedPacket.mk 3 0 []).data.length ≤
        ([0xdd, 0x03, 0, 0, 0, 0, 0x77] : List Nat).length ∧
      (ParsedPacket.mk 3 0 []).data.length =
        ([0xdd, 0x03, 0, 0, 0, 0, 0x77] : List Nat).getD (s + 3) 0 :=
  c10_parser_inbounds_len_exact [0xdd, 0x03, 0, 0, 0, 0, 0x77] ⟨3, 0, []⟩ (by decide)

-- ── C3 ───────────────────────────────────────────────────────────────────────

instance : DecidableEq (Except CmdError ParsedPacket) := fun a b =>
  match a, b with
  | .ok x, .ok y => decidable_of_iff (x = y) (by simp)
  | .error x, .error y => decidable_of_iff (x = y) (by simp)
  | .ok _, .error _ => isFalse (by simp)
  | .error _, .ok _ => isFalse (by simp)

lemma attemptResult_ne_exhausted (resp : List Nat) :
    attemptResult resp ≠ .error CmdError.exhausted := by
  unfold attemptResult
  cases parseResponsePacket resp with
  | none => simp
  | some p =>
    by_cases h : p.status ≠ 0
    · simp [h]
    · simp [h]

lemma runAttempts_ne_exhausted (packet : List Nat) :
    ∀ (n : Nat) (env : List (List Nat)) (le : Option CmdError),
      (1 ≤ n ∨ ∃ e, le = some e ∧ e ≠ CmdError.exhausted) →
      (runAttempts packet n env le).result ≠ .error CmdError.exhausted := by
  intro n
  induction n with
  | zero =>
    intro env le h
    rcases h with h | ⟨e, rfl, he⟩
    · omega
    · simp only [runAttempts, Option.getD_some]
      intro hh
      injection hh with h2
      exact he h2
  | succ n ih =>
    intro env le _
    cases hA : attemptResult (env.headD []) with
    | ok p =>
      simp only [runAttempts, hA]
      simp
    | error e =>
      simp only [runAttempts, hA]
      exact ih env.tail (some e)
        (Or.inr ⟨e, rfl, fun heq => attemptResult_ne_exhausted (env.headD []) (heq ▸ hA)⟩)

/-- C3 (counterexample): first attempt fails with an invalid (empty)
response, attempts two and three fail with device status 0x80; the
executor surfaces the status error of the LAST attempt, not the first
observed error, refuting the claim. -/
theorem c3_counterexample :
    attemptResult [] = .error CmdError.invalidResponse ∧
    attemptResult [0xdd, 0x03, 0x80, 0x00, 0xff, 0x80, 0x77] =
      .error (CmdError.statusError 0x80) ∧
    (sendCommandModel [0x01]
      [[], [0xdd, 0x03, 0x80, 0x00, 0xff, 0x80, 0x77],
       [0xdd, 0x03, 0x80, 0x00, 0xff, 0x80, 0x77]]).result =
      .error (CmdError.statusError 0x80) ∧
    CmdError.statusError 0x80 ≠ CmdError.invalidResponse :=
  ⟨by decide, by decide, by decide, by decide⟩

/-- C3 (amended): when all three attempts of a command fail, the executor
surfaces the error of the LAST failing attempt (the source's `lastError`
variable, overwritten on every attempt), and it never surfaces the generic
exhaustion fallback, so callers still receive a concrete framing/timeout or
device-status error rather than a generic one. -/
theorem c3_last_error_surfaced (packet r1 r2 r3 : List Nat)
    (rest : List (List Nat)) (e1 e2 e3 : CmdError)
    (h1 : attemptResult r1 = .error e1) (h2 : attemptResult r2 = .error e2)
    (h3 : attemptResult r3 = .error e3) :
    (sendCommandModel packet (r1 :: r2 :: r3 :: rest)).result = .error e3 ∧
    ∀ env, (sendCommandModel packet env).result ≠ .error CmdError.exhausted := by
  constructor
  · simp only [sendCommandModel, MAX_RETRIES, runAttempts, List.headD_cons,
      List.tail_cons, h1, h2, h3, Option.getD_some]
  · intro env
    exact runAttempts_ne_exhausted packet MAX_RETRIES env none
      (Or.inl (by norm_num [MAX_RETRIES]))

/-- Witness for C3 at concrete attempt responses. -/
theorem c3_witness :
    (sendCommandModel [0x01]
      [[], [0xdd, 0x03, 0x80, 0x00, 0xff, 0x80, 0x77],
       [0xdd, 0x03, 0x80, 0x00, 0xff, 0x80, 0x77]]).result =
      .error (CmdError.statusError 0x80) ∧
    ∀ env, (sendCommandModel [0x01] env).result ≠ .error CmdError.exhausted :=
  c3_last_error_surfaced [0x01] [] [0xdd, 0x03, 0x80, 0x00, 0xff, 0x80, 0x77]
    [0xdd, 0x03, 0x80, 0x00, 0xff, 0x80, 0x77] [] CmdError.invalidResponse
    (CmdError.statusError 0x80) (CmdError.statusError 0x80)
    (by decide) (by decide) (by decide)

-- ── C4 ───────────────────────────────────────────────────────────────────────

lemma runAttempts_succ_ok (packet : List Nat) (n : Nat) (env : List (List Nat))
    (le : Option CmdError) (p : ParsedPacket)
    (hA : attemptResult (env.headD []) = .ok p) :
    runAttempts packet (n + 1) env le = ⟨.ok p, env.tail, [packet]⟩ := by
  conv_lhs => rw [runAttempts]
  rw [hA]

lemma runAttempts_succ_error (packet : List Nat) (n : Nat) (env : List (List Nat))
    (le : Option CmdError) (e : CmdError)
    (hA : attemptResult (env.headD []) = .error e) :
    runAttempts packet (n + 1) env le =
      ⟨(runAttempts packet n env.tail (some e)).result,
       (runAttempts packet n env.tail (some e)).rest,
       packet :: (runAttempts packet n env.tail (some e)).tx⟩ := by
  conv_lhs => rw [runAttempts]
  rw [hA]

lemma runAttempts_tx_replicate (packet : List Nat) :
    ∀ (n : Nat) (env : List (List Nat)) (le : Option CmdError),
      ∃ k, 1 ≤ k ∧ k ≤ n + 1 ∧
        (runAttempts packet (n + 1) env le).tx = List.replicate k packet := by
  intro n
  induction n with
  | zero =>
    intro env le
    cases hA : attemptResult (env.headD []) with
    | ok p =>
      refine ⟨1, le_refl 1, le_refl 1, ?_⟩
      rw [runAttempts_succ_ok packet 0 env le p hA]
      rfl
    | error e =>
      refine ⟨1, le_refl 1, le_refl 1, ?_⟩
      rw [runAttempts_succ_error packet 0 env le e hA]
      rfl
  | succ n ih =>
    intro env le
    cases hA : attemptResult (env.headD []) with
    | ok p =>
      refine ⟨1, le_refl 1, by omega, ?_⟩
      rw [runAttempts_succ_ok packet (n + 1) env le p hA]
      rfl
    | error e =>
      obtain ⟨k, hk1, hk2, htx⟩ := ih env.tail (some e)
      refine ⟨k + 1, by omega, by omega, ?_⟩
      rw [runAttempts_succ_error packet (n + 1) env le e hA]
      simp only [htx]
      rw [List.replicate_succ]

lemma sendCommand_tx_replicate (packet : List Nat) (env : List (List Nat)) :
    ∃ k, 1 ≤ k ∧ k ≤ MAX_RETRIES ∧
      (sendCommandModel packet env).tx = List.replicate k packet :=
  runAttempts_tx_replicate packet 2 env none

/-- C4 (counterexample): with the open and the inner write succeeding but
every attempt of the close command failing (no responses left), the
close packet is written to the transport three times, not exactly once. -/
theorem c4_counterexample :
    ((writeRegisterModel 0x20 0
      [[0xdd, 0, 0, 0, 0, 0, 0x77], [0xdd, 0, 0, 0, 0, 0, 0x77]]).2).count
      buildEEPROMClose = 3 := by decide

/-- C4 (amended): for every write-register or read-config invocation whose
EEPROM-open command succeeds, whether the inner register operation(s)
succeed or fail, the transport trace is the open command's writes, then the
inner operation's writes, then a terminal block of at least one and at most
`MAX_RETRIES` EEPROM-close writes — so at least one close write always
follows the inner operation (exactly one when the close command's first
attempt succeeds), but the close command's own retry loop can retransmit
the close packet up to three times. -/
theorem c4_eeprom_close_always_follows (register value : Nat)
    (env : List (List Nat)) (p : ParsedPacket)
    (hopen : (sendCommandModel buildEEPROMOpen env).result = .ok p) :
    (∃ k, 1 ≤ k ∧ k ≤ MAX_RETRIES ∧
      (writeRegisterModel register value env).2 =
        (sendCommandModel buildEEPROMOpen env).tx ++
        (sendCommandModel (buildWriteUint16 register value)
          (sendCommandModel buildEEPROMOpen env).rest).tx ++
        List.replicate k buildEEPROMClose) ∧
    (∃ k, 1 ≤ k ∧ k ≤ MAX_RETRIES ∧
      (readConfigModel env).2 =
        (sendCommandModel buildEEPROMOpen env).tx ++
        (readSeq readConfigRegs (sendCommandModel buildEEPROMOpen env).rest).2.2 ++
        List.replicate k buildEEPROMClose) := by
  constructor
  · obtain ⟨k, hk1, hk2, htx⟩ := sendCommand_tx_replicate buildEEPROMClose
      (sendCommandModel (buildWriteUint16 register value)
        (sendCommandModel buildEEPROMOpen env).rest).rest
    refine ⟨k, hk1, hk2, ?_⟩
    simp only [writeRegisterModel, hopen, htx]
  · obtain ⟨k, hk1, hk2, htx⟩ := sendCommand_tx_replicate buildEEPROMClose
      (readSeq readConfigRegs (sendCommandModel buildEEPROMOpen env).rest).2.1
    refine ⟨k, hk1, hk2, ?_⟩
    simp only [readConfigModel, hopen, htx]

/-- Witness for C4 at a concrete environment in which the open command,
the inner operation and the close command all succeed. -/
theorem c4_witness :
    (∃ k, 1 ≤ k ∧ k ≤ MAX_RETRIES ∧
      (writeRegisterModel 0x20 0
        [[0xdd, 0, 0, 0, 0, 0, 0x77], [0xdd, 0, 0, 0, 0, 0, 0x77],
         [0xdd, 0, 0, 0, 0, 0, 0x77]]).2 =
        (sendCommandModel buildEEPROMOpen
          [[0xdd, 0, 0, 0, 0, 0, 0x77], [0xdd, 0, 0, 0, 0, 0, 0x77],
           [0xdd, 0, 0, 0, 0, 0, 0x77]]).tx ++
        (sendCommandModel (buildWriteUint16 0x20 0)
          (sendCommandModel buildEEPROMOpen
            [[0xdd, 0, 0, 0, 0, 0, 0x77], [0xdd, 0, 0, 0, 0, 0, 0x77],
             [0xdd, 0, 0, 0, 0, 0, 0x77]]).rest).tx ++
        List.replicate k buildEEPROMClose) ∧
    (∃ k, 1 ≤ k ∧ k ≤ MAX_RETRIES ∧
      (readConfigModel
        [[0xdd, 0, 0, 0, 0, 0, 0x77], [0xdd, 0, 0, 0, 0, 0, 0x77],
         [0xdd, 0, 0, 0, 0, 0, 0x77]]).2 =
        (sendCommandModel buildEEPROMOpen
          [[0xdd, 0, 0, 0, 0, 0, 0x77], [0xdd, 0, 0, 0, 0, 0, 0x77],
           [0xdd, 0, 0, 0, 0, 0, 0x77]]).tx ++
        (readSeq readConfigRegs
          (sendCommandModel buildEEPROMOpen
            [[0xdd, 0, 0, 0, 0, 0, 0x77], [0xdd, 0, 0, 0, 0, 0, 0x77],
             [0xdd, 0, 0, 0, 0, 0, 0x77]]).rest).2.2 ++
        List.replicate k buildEEPROMClose) :=
  c4_eeprom_close_always_follows 0x20 0
    [[0xdd, 0, 0, 0, 0, 0, 0x77], [0xdd, 0, 0, 0, 0, 0, 0x77],
     [0xdd, 0, 0, 0, 0, 0, 0x77]] ⟨0, 0, []⟩ (by decide)

-- ── C7 ───────────────────────────────────────────────────────────────────────

/-- Well-formed frame as the claim describes one: starts with the START
marker, total length exactly `7 + LEN`, and the stored big-endian checksum
matches `calcCRC` over the bytes from offset 2 through the data. -/
def frameWellFormed (F : List Nat) : Prop :=
  F.getD 0 0 = JBD_START ∧ F.length = 7 + F.getD 3 0 ∧
  calcCRC ((F.drop 2).take (2 + F.getD 3 0)) =
    F.getD (4 + F.getD 3 0) 0 * 256 + F.getD (5 + F.getD 3 0) 0

instance (F : List Nat) : Decidable (frameWellFormed F) :=
  instDecidableAnd

lemma splitPackets_cons_frame (F s : List Nat)
    (h0 : F.getD 0 0 = JBD_START) (hlen : F.length = 7 + F.getD 3 0) :
    splitPackets (F ++ s) = F :: splitPackets s := by
  cases F with
  | nil => simp at hlen
  | cons b rest =>
    have hb : b = JBD_START := by simpa using h0
    subst hb
    have hlen' : (JBD_START :: rest).length = 7 + (JBD_START :: rest).getD 3 0 := hlen
    rw [List.cons_append, splitPackets, if_pos rfl]
    have hg : (JBD_START :: (rest ++ s)).getD 3 0 = (JBD_START :: rest).getD 3 0 := by
      rw [← List.cons_append]
      exact List.getD_append _ _ _ _ (by simp at hlen' ⊢; omega)
    rw [if_neg (by simp at hlen' ⊢; omega)]
    simp only [hg]
    rw [if_pos (by simp at hlen' ⊢; omega)]
    rw [← List.cons_append, ← hlen', List.take_left, List.drop_left]

lemma splitPackets_fragment (F P : List Nat)
    (h0 : F.getD 0 0 = JBD_START) (hlen : F.length = 7 + F.getD 3 0)
    (hpre : ∃ q, F = P ++ q) (hne : P ≠ []) (hlt : P.length < F.length) :
    splitPackets P = [P] := by
  obtain ⟨q, hq⟩ := hpre
  cases P with
  | nil => exact absurd rfl hne
  | cons p0 pt =>
    have hp0 : p0 = JBD_START := by
      have := h0
      rw [hq, List.getD_append _ _ _ _ (by simp)] at this
      simpa using this
    subst hp0
    rw [splitPackets, if_pos rfl]
    by_cases hp7 : (JBD_START :: pt).length < 7
    · rw [if_pos hp7]
    · rw [if_neg hp7]
      have hg : F.getD 3 0 = (JBD_START :: pt).getD 3 0 := by
        rw [hq]
        exact List.getD_append _ _ _ _ (by simp at hp7 ⊢; omega)
      have hcond : ¬(7 + (JBD_START :: pt).getD 3 0 ≤ (JBD_START :: pt).length) := by
        rw [← hg]
        simp only [List.length_cons] at hlt ⊢
        omega
      rw [if_neg hcond]

/-- C7: for any two well-formed frames (START marker, total length `7 +
LEN`, correct checksum), the reassembler applied to their gapless
concatenation emits exactly the two original frames, each of which is
(by well-formedness) independently checksum-valid; and when the stream
ends mid-frame — the second frame replaced by any proper nonempty prefix
of it — the remainder is emitted as a terminal fragment rather than
dropped. -/
theorem c7_reassembler_two_frames (F1 F2 P : List Nat)
    (h1 : frameWellFormed F1) (h2 : frameWellFormed F2)
    (hpre : ∃ q, F2 = P ++ q) (hne : P ≠ []) (hlt : P.length < F2.length) :
    splitPackets (F1 ++ F2) = [F1, F2] ∧
    frameWellFormed F1 ∧ frameWellFormed F2 ∧
    splitPackets (F1 ++ P) = [F1, P] := by
  have e2 : splitPackets F2 = [F2] := by
    have h := splitPackets_cons_frame F2 [] h2.1 h2.2.1
    rw [List.append_nil] at h
    rw [h, show splitPackets [] = [] from by rw [splitPackets]]
  refine ⟨?_, h1, h2, ?_⟩
  · rw [splitPackets_cons_frame F1 F2 h1.1 h1.2.1, e2]
  · rw [splitPackets_cons_frame F1 P h1.1 h1.2.1,
      splitPackets_fragment F2 P h2.1 h2.2.1 hpre hne hlt]

/-- Witness for C7 at two concrete frames and a concrete fragment. -/
theorem c7_witness :
    splitPackets ([0xdd, 0x03, 0, 0, 0, 0, 0x77] ++ [0xdd, 0x04, 0, 0, 0, 0, 0x77]) =
      [[0xdd, 0x03, 0, 0, 0, 0, 0x77], [0xdd, 0x04, 0, 0, 0, 0, 0x77]] ∧
    frameWellFormed [0xdd, 0x03, 0, 0, 0, 0, 0x77] ∧
    frameWellFormed [0xdd, 0x04, 0, 0, 0, 0, 0x77] ∧
    splitPackets ([0xdd, 0x03, 0, 0, 0, 0, 0x77] ++ [0xdd, 0x04, 0]) =
      [[0xdd, 0x03, 0, 0, 0, 0, 0x77], [0xdd, 0x04, 0]] :=
  c7_reassembler_two_frames [0xdd, 0x03, 0, 0, 0, 0, 0x77]
    [0xdd, 0x04, 0, 0, 0, 0, 0x77] [0xdd, 0x04, 0]
    (by decide) (by decide) ⟨[0, 0, 0, 0x77], by decide⟩ (by decide) (by decide)

-- ── C8 ───────────────────────────────────────────────────────────────────────

lemma probeReadLoop_found :
    ∀ (evs : List ReadEvent) (acc : List (List Nat)),
      (probeReadLoop acc evs).1 = true →
      ∃ cs, (∃ q, evs = cs.map ReadEvent.chunk ++ q) ∧
        ∃ p, parseResponsePacket (mergeChunks (acc ++ cs)) = some p ∧
          p.register = JBD_CMD_HWINFO := by
  intro evs
  induction evs with
  | nil => intro acc h; simp [probeReadLoop] at h
  | cons e rest ih =>
    intro acc h
    cases e with
    | done => simp [probeReadLoop] at h
    | fail => simp [probeReadLoop] at h
    | chunk c =>
      simp only [probeReadLoop] at h
      cases hp : parseResponsePacket (mergeChunks (acc ++ [c])) with
      | some p =>
        simp only [hp] at h
        by_cases hr : p.register = JBD_CMD_HWINFO
        · exact ⟨[c], ⟨rest, by simp⟩, p, hp, hr⟩
        · rw [if_neg hr] at h
          obtain ⟨cs, ⟨q, hq⟩, p', hp', hr'⟩ := ih (acc ++ [c]) h
          refine ⟨c :: cs, ⟨q, by simp [hq]⟩, p', ?_, hr'⟩
          rw [show acc ++ c :: cs = acc ++ [c] ++ cs from by simp]
          exact hp'
      | none =>
        simp only [hp] at h
        obtain ⟨cs, ⟨q, hq⟩, p', hp', hr'⟩ := ih (acc ++ [c]) h
        refine ⟨c :: cs, ⟨q, by simp [hq]⟩, p', ?_, hr'⟩
        rw [show acc ++ c :: cs = acc ++ [c] ++ cs from by simp]
        exact hp'

/-- C8: probing never raises an error to its caller (the model is a total
function into a pair of Booleans, mirroring the catch-all that maps open
failures, write failures, read failures, close failures, timeouts and
malformed or wrong-device responses to `false`); the port close is
attempted on every path; and `confirmed = true` only when some prefix of
the chunks delivered within the probe window reassembles into a buffer
that parses to a response addressed to the HWINFO register.  Real time is
abstracted: the 1500 ms window is the extent of `env.reads`. -/
theorem c8_probe_never_throws_always_closes (env : ProbeEnv) :
    (probePortModel env).2 = true ∧
    ((probePortModel env).1 = true →
      ∃ cs, (∃ q, env.reads = cs.map ReadEvent.chunk ++ q) ∧
        ∃ p, parseResponsePacket (mergeChunks cs) = some p ∧
          p.register = JBD_CMD_HWINFO) := by
  have hfin : ∀ (c : Bool) (r : Bool × Bool), (probeFinish c r).2 = true := by
    intro c r
    unfold probeFinish
    split
    · rfl
    · split <;> rfl
  have hfst : ∀ (c : Bool) (r : Bool × Bool), (probeFinish c r).1 = true → r.1 = true := by
    intro c r h
    unfold probeFinish at h
    split at h
    · simp at h
    split at h
    · exact h
    · simp at h
  constructor
  · unfold probePortModel
    split
    · rfl
    split
    · rfl
    · exact hfin _ _
  · intro h
    unfold probePortModel at h
    split at h
    · simp at h
    split at h
    · simp at h
    · have h2 := hfst _ _ h
      by_cases hR : env.readableOk
      · rw [if_pos hR] at h2
        have := probeReadLoop_found env.reads [] h2
        simpa using this
      · rw [if_neg hR] at h2
        simp at h2

/-- Witness for C8 at a concrete environment delivering one chunk holding
a valid HWINFO response. -/
theorem c8_witness :
    (probePortModel ⟨true, true, true, true,
      [ReadEvent.chunk [0xdd, 0x03, 0, 0, 0, 0, 0x77]], true⟩).2 = true ∧
    ∃ cs, (∃ q, [ReadEvent.chunk [0xdd, 0x03, 0, 0, 0, 0, 0x77]] =
          cs.map ReadEvent.chunk ++ q) ∧
      ∃ p, parseResponsePacket (mergeChunks cs) = some p ∧
        p.register = JBD_CMD_HWINFO :=
  ⟨(c8_probe_never_throws_always_closes ⟨true, true, true, true,
      [ReadEvent.chunk [0xdd, 0x03, 0, 0, 0, 0, 0x77]], true⟩).1,
   (c8_probe_never_throws_always_closes ⟨true, true, true, true,
      [ReadEvent.chunk [0xdd, 0x03, 0, 0, 0, 0, 0x77]], true⟩).2 (by decide)⟩

-- ── C9 ───────────────────────────────────────────────────────────────────────

lemma toHexDigit_hex (n : Nat) (hn : n < 16) :
    isHexDigitChar (toHexDigit n) = true := by
  interval_cases n <;> decide

lemma toHexDigit_hexVal (n : Nat) (hn : n < 16) : hexVal (toHexDigit n) = n := by
  interval_cases n <;> decide

lemma toHexDigit_not_strip (n : Nat) (hn : n < 16) :
    isStripChar (toHexDigit n) = false := by
  interval_cases n <;> decide

lemma toHexDigit_not_space (n : Nat) (hn : n < 16) :
    isSpaceChar (toHexDigit n) = false := by
  interval_cases n <;> decide

lemma toHexDigit_ne (n : Nat) (hn : n < 16) :
    toHexDigit n ≠ '\\' ∧ toHexDigit n ≠ 'x' ∧ toHexDigit n ≠ 'X' ∧
    toHexDigit n ≠ ' ' ∧ toHexDigit n ≠ ':' ∧ toHexDigit n ≠ '\t' := by
  interval_cases n <;> decide

lemma mem_byteHex (b : Nat) (hb : b < 256) (c : Char) (hc : c ∈ byteHex b) :
    ∃ n, n < 16 ∧ c = toHexDigit n := by
  simp only [byteHex, List.mem_cons, List.not_mem_nil, or_false] at hc
  rcases hc with rfl | rfl
  · exact ⟨b / 16, by omega, rfl⟩
  · exact ⟨b % 16, by omega, rfl⟩

lemma mem_renderBytes (bs : List Nat) (hb : ∀ b ∈ bs, b < 256) (c : Char)
    (hc : c ∈ renderBytes bs) : ∃ n, n < 16 ∧ c = toHexDigit n := by
  induction bs with
  | nil => simp [renderBytes] at hc
  | cons b rest ih =>
    rw [renderBytes, List.mem_append] at hc
    rcases hc with hc | hc
    · exact mem_byteHex b (hb b (by simp)) c hc
    · exact ih (fun x hx => hb x (by simp [hx])) hc

lemma mem_renderDelim (d : Char) (bs : List Nat) (hb : ∀ b ∈ bs, b < 256)
    (c : Char) (hc : c ∈ renderDelim d bs) :
    c = d ∨ ∃ n, n < 16 ∧ c = toHexDigit n := by
  induction bs with
  | nil => simp [renderDelim] at hc
  | cons b rest ih =>
    cases rest with
    | nil =>
      right
      exact mem_byteHex b (hb b (by simp)) c (by simpa [renderDelim] using hc)
    | cons b2 rest2 =>
      rw [renderDelim, List.mem_append, List.mem_cons] at hc
      · rcases hc with hc | hc | hc
        · exact Or.inr (mem_byteHex b (hb b (by simp)) c hc)
        · exact Or.inl hc
        · exact ih (fun x hx => hb x (by simp [hx])) hc
      · simp

lemma hexPairs_renderBytes (bs : List Nat) (hb : ∀ b ∈ bs, b < 256) :
    hexPairs (renderBytes bs) = bs := by
  induction bs with
  | nil => rfl
  | cons b rest ih =>
    have hb0 : b < 256 := hb b (by simp)
    rw [renderBytes, byteHex, List.cons_append, List.cons_append, List.nil_append,
      hexPairs, toHexDigit_hexVal (b / 16) (by omega),
      toHexDigit_hexVal (b % 16) (by omega), ih (fun x hx => hb x (by simp [hx]))]
    congr 1
    omega

lemma renderBytes_length (bs : List Nat) :
    (renderBytes bs).length = 2 * bs.length := by
  induction bs with
  | nil => rfl
  | cons b rest ih =>
    simp [renderBytes, byteHex, ih]
    omega

lemma renderBytes_all_hex (bs : List Nat) (hb : ∀ b ∈ bs, b < 256) :
    (renderBytes bs).all isHexDigitChar = true := by
  rw [List.all_eq_true]
  intro c hc
  obtain ⟨n, hn, rfl⟩ := mem_renderBytes bs hb c hc
  exact toHexDigit_hex n hn

lemma filter_renderDelim (d : Char) (hd : isStripChar d = true) (bs : List Nat)
    (hb : ∀ b ∈ bs, b < 256) :
    (renderDelim d bs).filter (fun c => !isStripChar c) = renderBytes bs := by
  induction bs with
  | nil => rfl
  | cons b rest ih =>
    have hb0 : b < 256 := hb b (by simp)
    have h1 := toHexDigit_not_strip (b / 16) (by omega)
    have h2 := toHexDigit_not_strip (b % 16) (by omega)
    cases rest with
    | nil => simp [renderDelim, renderBytes, byteHex, List.filter, h1, h2]
    | cons b2 rest2 =>
      rw [renderDelim, renderBytes, List.filter_append, List.filter_cons]
      · rw [if_neg (by simp [hd])]
        rw [ih (fun x hx => hb x (by simp [hx]))]
        congr 1
        simp [byteHex, List.filter, h1, h2]
      · simp

lemma trimChars_eq_self (s : List Char)
    (h1 : ∀ c, s.head? = some c → isSpaceChar c = false)
    (h2 : ∀ c, s.getLast? = some c → isSpaceChar c = false) :
    trimChars s = s := by
  cases s with
  | nil => rfl
  | cons a s' =>
    have ha := h1 a rfl
    unfold trimChars
    rw [List.dropWhile_cons, if_neg (by simp [ha])]
    cases hrev : (a :: s').reverse with
    | nil => simp at hrev
    | cons dlast rs =>
      have hd : (a :: s').getLast? = some dlast := by
        rw [List.getLast?_eq_head?_reverse, hrev]
        rfl
      have hds := h2 dlast hd
      have hdw : List.dropWhile isSpaceChar (dlast :: rs) = dlast :: rs := by
        rw [List.dropWhile_cons, if_neg (by simp [hds])]
      rw [hdw, ← hrev, List.reverse_reverse]

lemma renderBytes_head? (b : Nat) (bs : List Nat) :
    (renderBytes (b :: bs)).head? = some (toHexDigit (b / 16)) := rfl

lemma renderDelim_head? (d : Char) (b : Nat) (bs : List Nat) :
    (renderDelim d (b :: bs)).head? = some (toHexDigit (b / 16)) := by
  cases bs <;> rfl

lemma renderBytes_ne_nil (b : Nat) (bs : List Nat) :
    renderBytes (b :: bs) ≠ [] := by
  rw [renderBytes, byteHex]
  simp

lemma renderDelim_ne_nil (d : Char) (b : Nat) (bs : List Nat) :
    renderDelim d (b :: bs) ≠ [] := by
  cases bs <;> simp [renderDelim, byteHex]

lemma renderBytes_getLast? :
    ∀ (bs : List Nat) (b : Nat),
      ∃ b', b' ∈ b :: bs ∧
        (renderBytes (b :: bs)).getLast? = some (toHexDigit (b' % 16)) := by
  intro bs
  induction bs with
  | nil => intro b; exact ⟨b, by simp, rfl⟩
  | cons b2 rest ih =>
    intro b
    obtain ⟨b', hb', hlast⟩ := ih b2
    refine ⟨b', by simp [List.mem_cons] at hb' ⊢; tauto, ?_⟩
    rw [renderBytes, List.getLast?_append_of_ne_nil _ (renderBytes_ne_nil b2 rest),
      hlast]

lemma renderDelim_getLast? (d : Char) :
    ∀ (bs : List Nat) (b : Nat),
      ∃ b', b' ∈ b :: bs ∧
        (renderDelim d (b :: bs)).getLast? = some (toHexDigit (b' % 16)) := by
  intro bs
  induction bs with
  | nil => intro b; exact ⟨b, by simp, rfl⟩
  | cons b2 rest ih =>
    intro b
    obtain ⟨b', hb', hlast⟩ := ih b2
    refine ⟨b', by simp [List.mem_cons] at hb' ⊢; tauto, ?_⟩
    rw [renderDelim]
    · rw [List.getLast?_append_of_ne_nil _ (by simp)]
      cases hL : renderDelim d (b2 :: rest) with
      | nil => exact absurd hL (renderDelim_ne_nil d b2 rest)
      | cons x xs =>
        rw [List.getLast?_cons_cons, ← hL, hlast]
    · simp

lemma looksLikeCEscaped_no_backslash (s : List Char) (h : ∀ c ∈ s, c ≠ '\\') :
    looksLikeCEscaped s = false := by
  induction s with
  | nil => rfl
  | cons c rest ih =>
    have hc : c ≠ '\\' := h c (by simp)
    have hcb : (c == '\\') = false := by simpa using hc
    rw [looksLikeCEscaped, ih (fun x hx => h x (by simp [hx])), hcb]
    simp

lemma stripLeadingHexMarker_eq_self (s : List Char)
    (h : ∀ c ∈ s, c ≠ 'x' ∧ c ≠ 'X') : stripLeadingHexMarker s = s := by
  unfold stripLeadingHexMarker
  split
  · rename_i rest
    exact absurd rfl ((h 'x' (by simp)).1)
  · rename_i rest
    exact absurd rfl ((h 'X' (by simp)).2)
  · rfl

lemma contains_false_of_not_mem (l : List Char) (c : Char) (h : c ∉ l) :
    l.contains c = false := by
  cases hc : l.contains c
  · rfl
  · exact absurd (List.elem_iff.mp hc) h

lemma byteHex_contains_false (b : Nat) (hb : b < 256) (c : Char)
    (hc : ∀ n, n < 16 → toHexDigit n ≠ c) : (byteHex b).contains c = false := by
  apply contains_false_of_not_mem
  intro hmem
  obtain ⟨n, hn, heq⟩ := mem_byteHex b hb c hmem
  exact hc n hn heq.symm

lemma renderBytes_contains_false (bs : List Nat) (hb : ∀ b ∈ bs, b < 256)
    (c : Char) (hc : ∀ n, n < 16 → toHexDigit n ≠ c) :
    (renderBytes bs).contains c = false := by
  apply contains_false_of_not_mem
  intro hmem
  obtain ⟨n, hn, heq⟩ := mem_renderBytes bs hb c hmem
  exact hc n hn heq.symm

lemma renderDelim_contains_self (d : Char) (b1 b2 : Nat) (rest : List Nat) :
    (renderDelim d (b1 :: b2 :: rest)).contains d = true := by
  have hm : d ∈ renderDelim d (b1 :: b2 :: rest) := by
    rw [renderDelim]
    · exact List.mem_append.mpr (Or.inr (by simp))
    · simp
  exact List.elem_iff.mpr hm

lemma trim_renderDelim (d : Char) (b : Nat) (bs : List Nat) (hb : b < 256) :
    trimChars (renderDelim d (b :: bs)) = renderDelim d (b :: bs) := by
  apply trimChars_eq_self
  · intro c hc
    rw [renderDelim_head?] at hc
    rw [← Option.some.inj hc]
    exact toHexDigit_not_space (b / 16) (by omega)
  · intro c hc
    obtain ⟨b', _, hlast⟩ := renderDelim_getLast? d bs b
    rw [hlast] at hc
    rw [← Option.some.inj hc]
    exact toHexDigit_not_space (b' % 16) (by omega)

lemma trim_renderBytes (b : Nat) (bs : List Nat) (hb : b < 256) :
    trimChars (renderBytes (b :: bs)) = renderBytes (b :: bs) := by
  apply trimChars_eq_self
  · intro c hc
    rw [renderBytes_head?] at hc
    rw [← Option.some.inj hc]
    exact toHexDigit_not_space (b / 16) (by omega)
  · intro c hc
    obtain ⟨b', _, hlast⟩ := renderBytes_getLast? bs b
    rw [hlast] at hc
    rw [← Option.some.inj hc]
    exact toHexDigit_not_space (b' % 16) (by omega)

/-- The non-escaped path of `parseHexInput` on a trim-invariant,
backslash-free input whose delimiter-strip stage produces exactly the
undelimited hex rendering of `bs`. -/
lemma parseHexInput_of_clean (s : List Char) (bs : List Nat) (hne : bs ≠ [])
    (hb : ∀ b ∈ bs, b < 256)
    (htrim : trimChars s = s)
    (hnb : looksLikeCEscaped s = false)
    (hs : (if (s.contains ' ' || s.contains ':' || s.contains '\t') = true then
            s.filter (fun c => !isStripChar c) else s) = renderBytes bs) :
    parseHexInput s = some bs := by
  have hsne : s ≠ [] := by
    rcases bs with _ | ⟨b, rest⟩
    · exact absurd rfl hne
    intro h
    subst h
    simp at hs
    exact renderBytes_ne_nil b rest hs
  have hie : s.isEmpty = false := by
    cases h : s.isEmpty
    · rfl
    · exact absurd (List.isEmpty_iff.mp h) hsne
  have hxX : ∀ c ∈ renderBytes bs, c ≠ 'x' ∧ c ≠ 'X' := by
    intro c hc
    obtain ⟨n, hn, rfl⟩ := mem_renderBytes bs hb c hc
    exact ⟨(toHexDigit_ne n hn).2.1, (toHexDigit_ne n hn).2.2.1⟩
  have hstrip := stripLeadingHexMarker_eq_self (renderBytes bs) hxX
  have hrne : (renderBytes bs).isEmpty = false := by
    rcases bs with _ | ⟨b, rest⟩
    · exact absurd rfl hne
    cases h : (renderBytes (b :: rest)).isEmpty
    · rfl
    · exact absurd (List.isEmpty_iff.mp h) (renderBytes_ne_nil b rest)
  have hall := renderBytes_all_hex bs hb
  have hmod : (renderBytes bs).length % 2 = 0 := by
    rw [renderBytes_length]
    omega
  simp only [parseHexInput, htrim, hie, hnb, Bool.false_eq_true, if_false, hs,
    hstrip, hrne, hall, Bool.not_true, Bool.or_false, hmod]
  simp [hexPairs_renderBytes bs hb]

/-- C9 (counterexample): the comma-delimited hexadecimal rendering of the
byte sequence DD A5 is rejected (`null`) by the textual-input parser,
because the delimiter-stripping branch is only taken when a space, colon
or tab occurs in the input — the claim says comma delimiting is accepted. -/
theorem c9_counterexample :
    parseHexInput (renderDelim ',' [0xdd, 0xa5]) = none := by decide

/-- C9 (amended): for every nonempty sequence of byte values, the
textual-input parser accepts its hexadecimal rendering delimited by spaces
or by colons, as well as undelimited, and in each case yields exactly that
byte sequence; a purely comma-delimited rendering is rejected, since commas
are stripped only when a space, colon or tab also occurs in the input. -/
theorem c9_hex_roundtrip (bs : List Nat) (hne : bs ≠ [])
    (hb : ∀ b ∈ bs, b < 256) :
    parseHexInput (renderDelim ' ' bs) = some bs ∧
    parseHexInput (renderDelim ':' bs) = some bs ∧
    parseHexInput (renderBytes bs) = some bs := by
  rcases bs with _ | ⟨b, rest⟩
  · exact absurd rfl hne
  have hb0 : b < 256 := hb b (by simp)
  have hnbD : ∀ (d : Char), d ≠ '\\' →
      looksLikeCEscaped (renderDelim d (b :: rest)) = false := by
    intro d hd
    apply looksLikeCEscaped_no_backslash
    intro c hc
    rcases mem_renderDelim d (b :: rest) hb c hc with rfl | ⟨n, hn, rfl⟩
    · exact hd
    · exact (toHexDigit_ne n hn).1
  have hsD : ∀ (d : Char), isStripChar d = true → (d = ' ' ∨ d = ':') →
      (if ((renderDelim d (b :: rest)).contains ' ' ||
           (renderDelim d (b :: rest)).contains ':' ||
           (renderDelim d (b :: rest)).contains '\t') = true then
        (renderDelim d (b :: rest)).filter (fun c => !isStripChar c)
       else renderDelim d (b :: rest)) = renderBytes (b :: rest) := by
    intro d hd hd2
    rcases rest with _ | ⟨b2, rest2⟩
    · have hbh : renderDelim d [b] = byteHex b := rfl
      rw [hbh, byteHex_contains_false b hb0 ' '
            (fun n hn => (toHexDigit_ne n hn).2.2.2.1),
          byteHex_contains_false b hb0 ':'
            (fun n hn => (toHexDigit_ne n hn).2.2.2.2.1),
          byteHex_contains_false b hb0 '\t'
            (fun n hn => (toHexDigit_ne n hn).2.2.2.2.2)]
      simp [renderBytes]
    · have hcond : ((renderDelim d (b :: b2 :: rest2)).contains ' ' ||
          (renderDelim d (b :: b2 :: rest2)).contains ':' ||
          (renderDelim d (b :: b2 :: rest2)).contains '\t') = true := by
        rcases hd2 with rfl | rfl
        · rw [renderDelim_contains_self]
          simp
        · rw [renderDelim_contains_self]
          simp
      rw [if_pos hcond]
      exact filter_renderDelim d hd (b :: b2 :: rest2) hb
  refine ⟨?_, ?_, ?_⟩
  · exact parseHexInput_of_clean _ _ (by simp) hb
      (trim_renderDelim ' ' b rest hb0) (hnbD ' ' (by decide))
      (hsD ' ' (by decide) (Or.inl rfl))
  · exact parseHexInput_of_clean _ _ (by simp) hb
      (trim_renderDelim ':' b rest hb0) (hnbD ':' (by decide))
      (hsD ':' (by decide) (Or.inr rfl))
  · refine parseHexInput_of_clean _ _ (by simp) hb
      (trim_renderBytes b rest hb0) ?_ ?_
    · apply looksLikeCEscaped_no_backslash
      intro c hc
      obtain ⟨n, hn, rfl⟩ := mem_renderBytes (b :: rest) hb c hc
      exact (toHexDigit_ne n hn).1
    · rw [renderBytes_contains_false (b :: rest) hb ' '
            (fun n hn => (toHexDigit_ne n hn).2.2.2.1),
          renderBytes_contains_false (b :: rest) hb ':'
            (fun n hn => (toHexDigit_ne n hn).2.2.2.2.1),
          renderBytes_contains_false (b :: rest) hb '\t'
            (fun n hn => (toHexDigit_ne n hn).2.2.2.2.2)]
      simp

/-- Witness for C9 at the concrete byte sequence DD A5 03. -/
theorem c9_witness :
    parseHexInput (renderDelim ' ' [0xdd, 0xa5, 0x03]) = some [0xdd, 0xa5, 0x03] ∧
    parseHexInput (renderDelim ':' [0xdd, 0xa5, 0x03]) = some [0xdd, 0xa5, 0x03] ∧
    parseHexInput (renderBytes [0xdd, 0xa5, 0x03]) = some [0xdd, 0xa5, 0x03] :=
  c9_hex_roundtrip [0xdd, 0xa5, 0x03] (by decide) (by decide)

-- ── C1 ───────────────────────────────────────────────────────────────────────

lemma sum_set_add (l : List Nat) (i b : Nat) (h : i < l.length) :
    (l.set i b).sum + l.getD i 0 = l.sum + b := by
  induction l generalizing i with
  | nil => simp at h
  | cons a l ih =>
    cases i with
    | zero =>
      simp only [List.set, List.sum_cons, List.getD_cons_zero]
      omega
    | succ i =>
      simp only [List.set, List.sum_cons, List.getD_cons_succ]
      have := ih i (by simpa using h)
      omega

lemma parseResponsePacket_cons_start (rest : List Nat) :
    parseResponsePacket (JBD_START :: rest) = parseFrom (JBD_START :: rest) := by
  have h : findStart (JBD_START :: rest) = some 0 := by
    rw [findStart, if_pos rfl]
  unfold parseResponsePacket
  rw [h]
  rfl

lemma parseFrom_exact (register status hi lo : Nat) (d : List Nat) :
    parseFrom (JBD_START :: register :: status :: d.length ::
        (d ++ [hi, lo, JBD_END])) =
      if calcCRC (status :: d.length :: d) = hi * 256 + lo
      then some ⟨register, status, d⟩ else none := by
  have htlen : (JBD_START :: register :: status :: d.length ::
      (d ++ [hi, lo, JBD_END])).length = 7 + d.length := by
    simp
    omega
  have h1 : (JBD_START :: register :: status :: d.length ::
      (d ++ [hi, lo, JBD_END])).getD 1 0 = register := rfl
  have h2 : (JBD_START :: register :: status :: d.length ::
      (d ++ [hi, lo, JBD_END])).getD 2 0 = status := rfl
  have h3 : (JBD_START :: register :: status :: d.length ::
      (d ++ [hi, lo, JBD_END])).getD 3 0 = d.length := rfl
  have hpre : (JBD_START :: register :: status :: d.length ::
      (d ++ [hi, lo, JBD_END])) =
      ([JBD_START, register, status, d.length] ++ d) ++ [hi, lo, JBD_END] := by
    simp
  have hplen : ([JBD_START, register, status, d.length] ++ d).length =
      4 + d.length := by
    simp
    omega
  have h4 : (JBD_START :: register :: status :: d.length ::
      (d ++ [hi, lo, JBD_END])).getD (4 + d.length) 0 = hi := by
    rw [hpre, List.getD_append_right _ _ _ _ (by simp; omega), hplen]
    simp
  have h5 : (JBD_START :: register :: status :: d.length ::
      (d ++ [hi, lo, JBD_END])).getD (5 + d.length) 0 = lo := by
    rw [hpre, List.getD_append_right _ _ _ _ (by simp; omega), hplen,
      show 5 + d.length - (4 + d.length) = 1 from by omega]
    rfl
  have h6 : (JBD_START :: register :: status :: d.length ::
      (d ++ [hi, lo, JBD_END])).getD (6 + d.length) 0 = JBD_END := by
    rw [hpre, List.getD_append_right _ _ _ _ (by simp; omega), hplen,
      show 6 + d.length - (4 + d.length) = 2 from by omega]
    rfl
  have hdrop4 : (JBD_START :: register :: status :: d.length ::
      (d ++ [hi, lo, JBD_END])).drop 4 = d ++ [hi, lo, JBD_END] := rfl
  have hdata : ((JBD_START :: register :: status :: d.length ::
      (d ++ [hi, lo, JBD_END])).drop 4).take d.length = d := by
    rw [hdrop4, List.take_left]
  have hdrop2 : (JBD_START :: register :: status :: d.length ::
      (d ++ [hi, lo, JBD_END])).drop 2 =
      status :: d.length :: (d ++ [hi, lo, JBD_END]) := rfl
  have hcrc : ((JBD_START :: register :: status :: d.length ::
      (d ++ [hi, lo, JBD_END])).drop 2).take (2 + d.length) =
      status :: d.length :: d := by
    rw [hdrop2, show status :: d.length :: (d ++ [hi, lo, JBD_END]) =
        ([status, d.length] ++ d) ++ [hi, lo, JBD_END] from by simp,
      List.take_append_of_le_length (by simp; omega)]
    rw [List.take_of_length_le (by simp; omega)]
    simp
  simp only [parseFrom, htlen, h1, h2, h3, h4, h5, h6, hdata, hcrc]
  rw [if_neg (show ¬(7 + d.length < 7) from by omega),
    if_neg (show ¬(7 + d.length < 7 + d.length) from by omega),
    if_neg (show ¬(JBD_END ≠ JBD_END) from by simp)]
  by_cases hc : calcCRC (status :: d.length :: d) = hi * 256 + lo
  · rw [if_neg (by simp [hc]), if_pos hc]
  · rw [if_pos hc, if_neg hc]

lemma parseFrom_len_too_big (register status lenByte c1 c2 : Nat) (d : List Nat)
    (h : d.length < lenByte) :
    parseFrom (JBD_START :: register :: status :: lenByte ::
      (d ++ [c1, c2, JBD_END])) = none := by
  have hT : (JBD_START :: register :: status :: lenByte ::
      (d ++ [c1, c2, JBD_END])).length = 7 + d.length := by
    simp
    omega
  have h3 : (JBD_START :: register :: status :: lenByte ::
      (d ++ [c1, c2, JBD_END])).getD 3 0 = lenByte := rfl
  simp only [parseFrom, hT, h3]
  rw [if_neg (by omega), if_pos (by omega)]

/-- C1 (counterexample): a frame with a correctly computed checksum whose
LEN byte is then changed from 4 to 1 without recomputing the checksum is
NOT rejected: it reparses successfully as a shorter packet (data `[0x00]`),
because the bytes that land in the checksum and end-byte positions of the
truncated reading happen to be consistent.  The claim says any LEN
mutation is detected. -/
theorem c1_counterexample :
    parseResponsePacket (mkFrameWithLen 0x03 0x00 [0x00, 0xff, 0xff, 0x77] 1) =
      some ⟨0x03, 0x00, [0x00]⟩ := by decide

/-- C1 (amended): for every register id, status byte, and payload of at most
255 bytes, the frame assembled with the checksum computed by `calcCRC` over
`[status, LEN, DATA...]` parses via `parseResponsePacket` to exactly that
register, status and data; changing any single DATA byte to a different
byte value without recomputing the checksum makes parsing fail, and
increasing the LEN byte makes parsing fail.  (Decreasing the LEN byte is
not always detected — see the counterexample.) -/
theorem c1_roundtrip_and_mutations (register status : Nat) (data : List Nat)
    (_hreg : register < 256) (_hstat : status < 256)
    (hdata : ∀ b ∈ data, b < 256) (_hlen : data.length ≤ 255) :
    parseResponsePacket (mkResponseFrame register status data) =
      some ⟨register, status, data⟩ ∧
    (∀ i b, i < data.length → b < 256 → b ≠ data.getD i 0 →
      parseResponsePacket (mkFrameWithData register status data i b) = none) ∧
    (∀ lenByte, data.length < lenByte →
      parseResponsePacket (mkFrameWithLen register status data lenByte) = none) := by
  refine ⟨?_, ?_, ?_⟩
  · have hlt := calcCRC_lt (status :: data.length :: data)
    simp only [mkResponseFrame]
    rw [parseResponsePacket_cons_start, parseFrom_exact, if_pos (by omega)]
  · intro i b hi hb hbne
    have hEmem : data.getD i 0 ∈ data := by
      rw [List.getD_eq_getElem?_getD, List.getElem?_eq_getElem hi]
      exact List.getElem_mem hi
    have hE : data.getD i 0 < 256 := hdata _ hEmem
    have hsum := sum_set_add data i b hi
    simp only [mkFrameWithData]
    rw [show data.length = (data.set i b).length from (List.length_set data i b).symm,
      parseResponsePacket_cons_start, parseFrom_exact, if_neg ?hne]
    case hne =>
      unfold calcCRC
      simp only [List.sum_cons, List.length_set]
      omega
  · intro lenByte hlb
    simp only [mkFrameWithLen]
    rw [parseResponsePacket_cons_start,
      parseFrom_len_too_big _ _ _ _ _ _ hlb]

/-- Witness for C1 at a concrete register, status and payload. -/
theorem c1_witness :
    parseResponsePacket (mkResponseFrame 0x03 0x00 [1, 2]) =
      some ⟨0x03, 0x00, [1, 2]⟩ ∧
    parseResponsePacket (mkFrameWithData 0x03 0x00 [1, 2] 0 9) = none ∧
    parseResponsePacket (mkFrameWithLen 0x03 0x00 [1, 2] 3) = none := by
  obtain ⟨hrt, hmutD, hmutL⟩ :=
    c1_roundtrip_and_mutations 0x03 0x00 [1, 2] (by decide) (by decide)
      (by decide) (by decide)
  exact ⟨hrt, hmutD 0 9 (by decide) (by decide) (by decide), hmutL 3 (by decide)⟩
